import Mathlib

/-!
Verification development for the offLIMMMA polygon annotation engine
(src/src/PaintbrushToolbar.tsx and src/unnamed/part_008).

Shallow embedding conventions:
* Map coordinates are rational pairs (`QCoord`); the source uses JS doubles.
  Every distance comparison in the source is of the form
  `Math.sqrt d < t` with `d, t ≥ 0`, which is equivalent to `d < t^2`;
  the embedding therefore works with squared distances throughout.
* The JSTS computational-geometry capability is opaque in the source
  (loaded from `window.jsts`).  It is embedded as a record of fallible
  operations (`GeomOps`, with `Except Unit` results standing for JS
  exceptions).  The concrete instance `cellOps` interprets a geometry as a
  finite set of unit grid cells, with union/difference/intersects/touches
  given set-theoretically; `failingOps` is the instance where every
  operation throws; `unavailableOps` models `window.jsts` being absent.
* The OpenLayers vector source is a list of `MapFeature`s in insertion
  order; `removeFeature` removes the first structurally equal element
  (object identity in the source).
* Feature properties set via `feature.set(key, v)` are `Option` fields;
  a property never set is `none`.  JS `x || y` on strings treats `""` and
  `undefined` as falsy (`jsOrColor`); `x ?? y` is `Option.getD`.
-/

set_option maxRecDepth 100000

namespace Paintbrush

abbrev QCoord := ℚ × ℚ

/-- One grid cell of the cell-set geometry model used to instantiate the
JSTS capability. -/
abbrev Cell := Int × Int

/-- A geometry in the cell-set model: a finite list of unit cells. -/
abbrev Geom := List Cell

/-- Feature geometry: a polygon (cell-set model), a line string, or a point
(the snap indicator). -/
inductive FGeom where
  | poly (cells : Geom)
  | line (coords : List QCoord)
  | point (c : QCoord)
deriving DecidableEq, Repr

/-- `geometry instanceof Polygon` -/
def FGeom.isPoly : FGeom → Bool
  | .poly _ => true
  | _ => false

/-- The cells of a polygon geometry (`[]` for non-polygons; only used
under an `isPoly` guard). -/
def FGeom.cells : FGeom → Geom
  | .poly cs => cs
  | _ => []

/-- One feature of the OpenLayers vector source, with the properties the
PaintbrushToolbar sets: `classId`, `strokeColor`, `opacity` and the
`__transient` marker key. -/
structure MapFeature where
  geom : FGeom
  classId : Option Nat
  strokeColor : Option String
  opacity : Option ℚ
  transient : Bool
deriving DecidableEq, Repr

/-- A paint class (id, name, color), from src/unnamed types. -/
structure PaintClass where
  id : Nat
  name : String
  color : String
deriving DecidableEq, Repr

/-- One serialized feature of a history entry, as built in `saveState`
(lines 2388-2398): the written GeoJSON plus the three copied properties. -/
structure SavedFeature where
  geom : FGeom
  classId : Option Nat
  strokeColor : Option String
  opacity : Option ℚ
deriving DecidableEq, Repr

/-- `writeFeatureObject` plus the property copies of `saveState`. -/
def serializeFeature (f : MapFeature) : SavedFeature :=
  ⟨f.geom, f.classId, f.strokeColor, f.opacity⟩

/-- `readFeature` plus the three `feature.set` calls of `restoreState`
(lines 2440-2446).  A restored feature carries no `__transient` key. -/
def deserializeFeature (s : SavedFeature) : MapFeature :=
  ⟨s.geom, s.classId, s.strokeColor, s.opacity, false⟩

/-- `maxHistorySize` (line 2378). -/
def maxHistorySize : Nat := 50

/-- The undo/redo history: `historyRef.current` and `historyIndexRef.current`. -/
structure History where
  entries : List (List SavedFeature)
  index : Int
deriving DecidableEq, Repr

/-- History initialisation in the map-init effect (lines 2874-2875):
one empty entry, index 0. -/
def initHistory : History := ⟨[[]], 0⟩

/-- The snapshot built by `saveState` (lines 2387-2398): all non-transient
features, serialized. -/
def snapshotOf (store : List MapFeature) : List SavedFeature :=
  (store.filter (fun f => !f.transient)).map serializeFeature

/-- `saveState` (lines 2383-2428): snapshot the store, prune any redo
branch, push, then either evict the oldest entry (leaving the index
unchanged) or move the index to the new last entry. -/
def saveState (store : List MapFeature) (h : History) : History :=
  let state := snapshotOf store
  let entries :=
    if h.index < (h.entries.length : Int) - 1 then
      h.entries.take (h.index + 1).toNat
    else h.entries
  let entries := entries ++ [state]
  if entries.length > maxHistorySize then
    { entries := entries.drop 1, index := h.index }
  else
    { entries := entries, index := (entries.length : Int) - 1 }

/-- `restoreState` (lines 2431-2454): clear the source and re-add each
deserialized feature.  (The per-feature try/catch guards `readFeature`,
which cannot fail in this embedding.) -/
def restoreState (state : List SavedFeature) : List MapFeature :=
  state.map deserializeFeature

/-- `undo` (lines 2457-2470).  Returns the store and history after the
call; a call with `index < 0` returns both unchanged. -/
def undo (store : List MapFeature) (h : History) : List MapFeature × History :=
  if h.index < 0 then (store, h)
  else
    let idx := h.index - 1
    let state := if 0 ≤ idx then h.entries.getD idx.toNat [] else []
    (restoreState state, { h with index := idx })

/-- `redo` (lines 2473-2486). -/
def redo (store : List MapFeature) (h : History) : List MapFeature × History :=
  if (h.entries.length : Int) - 1 ≤ h.index then (store, h)
  else
    let idx := h.index + 1
    (restoreState (h.entries.getD idx.toNat []), { h with index := idx })

/-- The published `canUndo` flag (line 2598). -/
def canUndo (h : History) : Bool :=
  decide (0 ≤ h.index) || decide (0 < h.entries.length)

/-- The published `canRedo` flag (line 2599). -/
def canRedo (h : History) : Bool :=
  decide (h.index < (h.entries.length : Int) - 1)

/-- `exportGeoJSON` (lines 2501-2530, feature selection and payload):
non-transient features only, `none` when there are none. -/
def exportGeoJSON (store : List MapFeature) : Option (List SavedFeature) :=
  let features := store.filter (fun f => !f.transient)
  if features.length = 0 then none
  else some (features.map serializeFeature)

/-! ## The JSTS capability and its instances -/

/-- The opaque `window.jsts` capability used by `commitPolygon` and
`mergeOverlappingPolygons`.  `Except Unit` results model JS exceptions;
`available` models the `jsts?.io?.GeoJSONReader`/`GeoJSONWriter` presence
checks, `hasReducer` the `GeometryPrecisionReducer`/`PrecisionModel`
presence check, and `hasUnaryUnion` the `jsts.operation.union?.UnaryUnionOp`
presence check.  `readGeom` is `jstsReader.read` on a written GeoJSON
geometry; `writeRead` is `jstsWriter.write` followed by
`geoJsonFormat.readGeometry`; `reduce` is `reducer.reduce`. -/
structure GeomOps where
  available : Bool
  hasReducer : Bool
  hasUnaryUnion : Bool
  buffer0 : Geom → Except Unit Geom
  reduce : Geom → Except Unit Geom
  intersects : Geom → Geom → Except Unit Bool
  touches : Geom → Geom → Except Unit Bool
  difference : Geom → Geom → Except Unit Geom
  union2 : Geom → Geom → Except Unit Geom
  unaryUnion : List Geom → Except Unit Geom
  readGeom : Geom → Except Unit Geom
  writeRead : Geom → Except Unit Geom

/-- `try { g = g.buffer(0) } catch { keep g }`. -/
def tryRepair (ops : GeomOps) (g : Geom) : Geom :=
  match ops.buffer0 g with
  | .ok g2 => g2
  | .error _ => g

/-- `if (reducer) try { g = reducer.reduce(g) } catch { keep g }`. -/
def tryReduce (ops : GeomOps) (g : Geom) : Geom :=
  if ops.hasReducer then
    match ops.reduce g with
    | .ok g2 => g2
    | .error _ => g
  else g

/-- Cell-set union (`A ∪ B`), duplicates dropped. -/
def cellUnion (a b : Geom) : Geom :=
  a ++ b.filter (fun c => decide (c ∉ a))

/-- Cell-set difference (`A − B`). -/
def cellDiff (a b : Geom) : Geom :=
  a.filter (fun c => decide (c ∉ b))

/-- Cell-set `intersects`: some cell in both. -/
def cellIntersects (a b : Geom) : Bool :=
  a.any (fun c => decide (c ∈ b))

/-- Two cells sharing a side. -/
def adjacentCell (c d : Cell) : Bool :=
  decide ((c.1 - d.1).natAbs + (c.2 - d.2).natAbs = 1)

/-- Cell-set `touches`: some pair of side-adjacent cells. -/
def cellTouches (a b : Geom) : Bool :=
  a.any (fun c => b.any (fun d => adjacentCell c d))

/-- The `intersects || touches` overlap test both merge and trim use. -/
def cellOverlap (a b : Geom) : Bool :=
  cellIntersects a b || cellTouches a b

/-- The total cell-set instance of the capability: no operation throws,
repairs and conversions are the identity.  This is the run of the source
in which no geometry operation fails. -/
def cellOps : GeomOps where
  available := true
  hasReducer := true
  hasUnaryUnion := true
  buffer0 := fun g => .ok g
  reduce := fun g => .ok g
  intersects := fun a b => .ok (cellIntersects a b)
  touches := fun a b => .ok (cellTouches a b)
  difference := fun a b => .ok (cellDiff a b)
  union2 := fun a b => .ok (cellUnion a b)
  unaryUnion := fun gs => .ok (gs.foldl cellUnion [])
  readGeom := fun g => .ok g
  writeRead := fun g => .ok g

/-- The capability with `window.jsts` absent. -/
def unavailableOps : GeomOps := { cellOps with available := false }

/-- The capability in which every geometry operation throws. -/
def failingOps : GeomOps where
  available := true
  hasReducer := true
  hasUnaryUnion := true
  buffer0 := fun _ => .error ()
  reduce := fun _ => .error ()
  intersects := fun _ _ => .error ()
  touches := fun _ _ => .error ()
  difference := fun _ _ => .error ()
  union2 := fun _ _ => .error ()
  unaryUnion := fun _ => .error ()
  readGeom := fun _ => .error ()
  writeRead := fun _ => .error ()

/-! ## mergeOverlappingPolygons (src/unnamed/part_008, lines 809-982) -/

/-- Remove the first structurally equal occurrence
(`vectorSource.removeFeature(feature)`, object identity). -/
def removeFirstFeature : List MapFeature → MapFeature → List MapFeature
  | [], _ => []
  | g :: rest, f => if g = f then rest else g :: removeFirstFeature rest f

/-- JS `a || b` on an optional string (both `undefined` and `""` are falsy). -/
def jsOrColor (a : Option String) (b : String) : String :=
  match a with
  | some s => if s = "" then b else s
  | none => b

/-- The `existingFeatures.forEach` loop of `mergeOverlappingPolygons`
(lines 854-871): read and repair each same-class polygon, test
`intersects || touches` against the new geometry (an uncaught throw here
reaches the outer catch), and collect the overlapping geometries and
their features in order. -/
def collectOverlaps (ops : GeomOps) (newG : Geom) :
    List MapFeature → Except Unit (List Geom × List MapFeature)
  | [] => .ok ([], [])
  | f :: rest =>
    match ops.readGeom f.geom.cells with
    | .error e => .error e
    | .ok j0 =>
      let jg := tryRepair ops j0
      match ops.intersects newG jg with
      | .error e => .error e
      | .ok i =>
        match ops.touches newG jg with
        | .error e => .error e
        | .ok t =>
          match collectOverlaps ops newG rest with
          | .error e => .error e
          | .ok (gs, fs) =>
            .ok (if i || t then (jg :: gs, f :: fs) else (gs, fs))

/-- One pair merge of the cascaded-union fallback (lines 909-934):
union the pair and clean it; on failure retry with both buffered; if
that also fails keep both geometries. -/
def unionPair (ops : GeomOps) (a b : Geom) : List Geom :=
  match ops.union2 a b with
  | .ok m =>
    match ops.buffer0 m with
    | .ok m2 => [m2]
    | .error _ => [m]
  | .error _ =>
    match (do
        let a2 ← ops.buffer0 a
        let b2 ← ops.buffer0 b
        let m ← ops.union2 a2 b2
        ops.buffer0 m : Except Unit Geom) with
    | .ok m2 => [m2]
    | .error _ => [a, b]

/-- One pass of the pair loop (`for i += 2`, lines 909-939). -/
def cascadeRound (ops : GeomOps) : List Geom → List Geom
  | [] => []
  | [a] => [a]
  | a :: b :: rest => unionPair ops a b ++ cascadeRound ops rest

/-- The `while (geometries.length > 1)` loop (lines 905-942), fuelled:
when a pair merge fails completely the JS loop would not shrink the list
(and would not terminate); the fuel bounds the rounds, and with the
initial fuel used below it is never exhausted on a run in which the list
shrinks each round. -/
def cascadeUnion (ops : GeomOps) : Nat → List Geom → Geom
  | _, [] => []
  | _, [a] => a
  | 0, a :: _ => a
  | fuel + 1, a :: b :: rest => cascadeUnion ops fuel (cascadeRound ops (a :: b :: rest))

/-- Geometry-union dispatch (lines 879-946): a single geometry is used
as-is; otherwise `UnaryUnionOp` on the collection, falling back to the
cascaded pairwise union when it is absent or throws. -/
def mergeUnion (ops : GeomOps) (gs : List Geom) : Geom :=
  match gs with
  | [] => []
  | [g] => g
  | _ =>
    if ops.hasUnaryUnion then
      match ops.unaryUnion gs with
      | .ok m => m
      | .error _ => cascadeUnion ops gs.length gs
    else cascadeUnion ops gs.length gs

/-- `mergeOverlappingPolygons` (src/unnamed/part_008, lines 809-982).
Returns the vector source contents after the call together with the list
of returned merged features.  The outer try/catch returns `[]` and leaves
the source untouched (every fallible operation happens before the
`featuresToRemove.forEach(removeFeature)` loop). -/
def mergeOverlappingPolygons (ops : GeomOps) (selectedClass : Option PaintClass)
    (opacity : ℚ) (store : List MapFeature) (newPolygon : Geom) (classId : Nat) :
    List MapFeature × List MapFeature :=
  if !ops.available then (store, [])
  else
    let body : Except Unit (List MapFeature × List MapFeature) :=
      let existingFeatures :=
        store.filter (fun f => decide (f.classId = some classId) && f.geom.isPoly)
      if existingFeatures.isEmpty then .ok (store, [])
      else
        match ops.readGeom newPolygon with
        | .error e => .error e
        | .ok n0 =>
          let newG := tryRepair ops n0
          match collectOverlaps ops newG existingFeatures with
          | .error e => .error e
          | .ok (gs, featuresToRemove) =>
            if featuresToRemove.isEmpty then .ok (store, [])
            else
              let merged := mergeUnion ops (newG :: gs)
              let merged2 := tryRepair ops merged
              match ops.writeRead merged2 with
              | .error e => .error e
              | .ok mergedOl =>
                let store2 := featuresToRemove.foldl removeFirstFeature store
                let firstFeature := featuresToRemove.head?
                let mergedFeature : MapFeature :=
                  { geom := .poly mergedOl
                    classId := some classId
                    strokeColor := some (jsOrColor (selectedClass.map (·.color))
                      (jsOrColor (firstFeature.bind (·.strokeColor)) "#ff7f50"))
                    opacity := some ((firstFeature.bind (·.opacity)).getD opacity)
                    transient := false }
                .ok (store2, [mergedFeature])
    match body with
    | .ok r => r
    | .error _ => (store, [])

/-! ## commitPolygon (src/src/PaintbrushToolbar.tsx, lines 3265-3372) -/

/-- Ring closing, common to `commitPolygon` (lines 3270-3276) and the
freehand `handlePointerUp` (lines 3664-3672): append the first coordinate
unless the last one is already exactly equal to it. -/
def closeRing (coords : List QCoord) : List QCoord :=
  match coords.head?, coords.getLast? with
  | some first, some last => if first = last then coords else coords ++ [first]
  | _, _ => coords

/-- The cross-class trim loop body of `commitPolygon` (lines 3316-3338):
for each other-class polygon, read/repair/reduce it, test
`intersects || touches` (uncaught throws reach the outer catch), and on
overlap subtract it, repairing and reducing the result; a throwing
`difference` keeps the current geometry. -/
def trimOthers (ops : GeomOps) : Geom → List Geom → Except Unit Geom
  | acc, [] => .ok acc
  | acc, graw :: rest =>
    match ops.readGeom graw with
    | .error e => .error e
    | .ok og0 =>
      let og := tryReduce ops (tryRepair ops og0)
      match ops.intersects acc og with
      | .error e => .error e
      | .ok i =>
        match ops.touches acc og with
        | .error e => .error e
        | .ok t =>
          let acc2 :=
            if i || t then
              match ops.difference acc og with
              | .ok d => tryReduce ops (tryRepair ops d)
              | .error _ => acc
            else acc
          trimOthers ops acc2 rest

/-- The whole guarded trim block of `commitPolygon` (lines 3282-3351):
skipped when JSTS is unavailable; any uncaught throw inside keeps the
original polygon. -/
def commitTrim (ops : GeomOps) (selId : Nat) (store : List MapFeature)
    (raw : Geom) : Geom :=
  if ops.available then
    let others := store.filter (fun f =>
      !f.transient && f.classId.isSome && decide (f.classId ≠ some selId) && f.geom.isPoly)
    let res : Except Unit Geom :=
      match ops.readGeom raw with
      | .error e => .error e
      | .ok g1 =>
        match trimOthers ops (tryReduce ops (tryRepair ops g1)) (others.map (·.geom.cells)) with
        | .error e => .error e
        | .ok g => ops.writeRead g
    match res with
    | .ok g => g
    | .error _ => raw
  else raw

/-- `commitPolygon` from the built polygon geometry on (lines 3280-3368):
trim against other-class polygons first, then remove the preview feature,
then hand the trimmed polygon to `handleMergePolygons`
(= `mergeOverlappingPolygons`); add the merged features, or, when merge
returned none, a fresh feature with the trimmed polygon and the selected
class's color/id and the global opacity. -/
def commitPolygonGeom (ops : GeomOps) (selectedClass : PaintClass) (opacity : ℚ)
    (store : List MapFeature) (preview : Option MapFeature) (polygonGeom : Geom) :
    List MapFeature :=
  let polygon := commitTrim ops selectedClass.id store polygonGeom
  let store0 := match preview with
    | some p => removeFirstFeature store p
    | none => store
  let merged := mergeOverlappingPolygons ops (some selectedClass) opacity store0
    polygon selectedClass.id
  if !merged.2.isEmpty then merged.1 ++ merged.2
  else merged.1 ++ [{ geom := .poly polygon
                      classId := some selectedClass.id
                      strokeColor := some selectedClass.color
                      opacity := some opacity
                      transient := false }]

/-- `commitPolygon` (lines 3265-3372) including its guards: no selected
class or fewer than 3 vertices leave the store unchanged; otherwise the
ring is closed, converted (`ringToCells` stands for
`new Polygon` + `writeGeometryObject`), and committed. -/
def commitPolygon (ops : GeomOps) (selectedClass : Option PaintClass) (opacity : ℚ)
    (store : List MapFeature) (preview : Option MapFeature) (coords : List QCoord)
    (ringToCells : List QCoord → Geom) : List MapFeature :=
  match selectedClass with
  | none => store
  | some cls =>
    if coords.length < 3 then store
    else commitPolygonGeom ops cls opacity store preview (ringToCells (closeRing coords))

/-! ## Preview and indicator features, freehand stroke, erase -/

/-- The rubber-band preview line feature built by `updatePreview`
(lines 3390-3396): strokeColor/opacity/classId are set; the source never
sets `TRANSIENT_KEY` on it, so `transient` is `false`. -/
def previewLineFeature (selectedClass : PaintClass) (opacity : ℚ)
    (lineCoords : List QCoord) : MapFeature :=
  { geom := .line lineCoords
    classId := some selectedClass.id
    strokeColor := some selectedClass.color
    opacity := some opacity
    transient := false }

/-- The rubber-band line coordinates (lines 3383-3387): committed vertices
plus the current pointer position while drawing. -/
def previewLineCoords (coords : List QCoord) (pointerCoord : Option QCoord)
    (isDrawingPolygon : Bool) : List QCoord :=
  match pointerCoord, isDrawingPolygon with
  | some p, true => coords ++ [p]
  | _, _ => coords

/-- The snap-indicator point feature built by `setSnapIndicator`
(lines 3231-3243): `TRANSIENT_KEY` is set; no classId/strokeColor/opacity
properties are set. -/
def snapIndicatorFeature (coordinate : QCoord) : MapFeature :=
  { geom := .point coordinate
    classId := none
    strokeColor := none
    opacity := none
    transient := true }

/-- Squared euclidean distance; the source computes
`Math.hypot`/`Math.sqrt` and compares, which is equivalent to comparing
the squares against the squared threshold. -/
def sqDist (a b : QCoord) : ℚ :=
  (a.1 - b.1) * (a.1 - b.1) + (a.2 - b.2) * (a.2 - b.2)

/-- `updateStroke` (lines 3598-3630) on the coordinate buffer: append the
coordinate unless it is within 3 screen pixels (scaled by the resolution)
of the last appended one. -/
def updateStroke (resolution : ℚ) (coords : List QCoord) (coordinate : QCoord) :
    List QCoord :=
  match coords.getLast? with
  | some lastCoord =>
    if sqDist lastCoord coordinate < (3 * resolution) * (3 * resolution) then coords
    else coords ++ [coordinate]
  | none => coords ++ [coordinate]

/-- A freehand stroke: `handlePointerDown` resets the buffer and appends
the pointer-down coordinate, then each drag event runs `updateStroke`. -/
def freehandStroke (resolution : ℚ) (down : QCoord) (moves : List QCoord) :
    List QCoord :=
  moves.foldl (updateStroke resolution) (updateStroke resolution [] down)

/-- The ring built by the freehand `handlePointerUp` (lines 3662-3674) and
by `commitPolygon` (lines 3267-3278): `none` when fewer than 3 points were
accumulated (the stroke is discarded), otherwise the closed ring. -/
def commitRing (coords : List QCoord) : Option (List QCoord) :=
  if 3 ≤ coords.length then some (closeRing coords) else none

/-- The hit tolerance of the erase click (line 3729). -/
def eraseHitTolerance : Nat := 5

/-- The erase-tool `handleClick` (lines 3725-3745).  `hitTest` is the
`map.getFeaturesAtPixel` view capability: the ordered (topmost-first)
features at a pixel for a given hit tolerance.  Returns the store and
history after the click. -/
def eraseClick (hitTest : (Int × Int) → Nat → List MapFeature)
    (pixel : Int × Int) (store : List MapFeature) (h : History) :
    List MapFeature × History :=
  let features := hitTest pixel eraseHitTolerance
  let actualFeatures := features.filter (fun f => !f.transient)
  match actualFeatures.head? with
  | none => (store, h)
  | some featureToRemove =>
    let store2 := removeFirstFeature store featureToRemove
    (store2, saveState store2 h)

/-! ## snapToBoundary (lines 3414-3508) -/

/-- A feature as seen by the snapping code: its classId and, when its
geometry is a polygon, the exterior ring's coordinates
(`getLinearRing(0).getCoordinates()`). -/
structure SnapFeature where
  classId : Option Nat
  ring : Option (List QCoord)
deriving DecidableEq, Repr

/-- The exterior ring coordinates (only used on polygon features). -/
def SnapFeature.ringCoords (f : SnapFeature) : List QCoord :=
  f.ring.getD []

/-- The OpenLayers geometry capability used by snapping:
`LineString.getClosestPoint` and `Polygon.intersectsCoordinate`. -/
structure SnapCap where
  closestPoint : List QCoord → QCoord → QCoord
  intersectsCoordinate : List QCoord → QCoord → Bool

/-- The candidate filter of `snapToBoundary` (lines 3420-3427): features
with a classId that is present and different from the selected class's,
and polygon geometry. -/
def snapCandidates (selId : Nat) (features : List SnapFeature) : List SnapFeature :=
  features.filter (fun f =>
    f.classId.isSome && decide (f.classId ≠ some selId) && f.ring.isSome)

/-- The candidate scan of `snapToBoundary` (lines 3446-3467): for each
candidate, the closest boundary point and its (squared) distance; keep the
closest one among those strictly within tolerance.  The accumulator
`none` is the initial `closestDistance = Infinity` state. -/
def scanBoundaries (cap : SnapCap) (coordinate : QCoord) (tolSq : ℚ)
    (acc : Option (QCoord × ℚ × List QCoord)) :
    List SnapFeature → Option (QCoord × ℚ × List QCoord)
  | [] => acc
  | f :: rest =>
    let ringCoords := f.ringCoords
    let closestOnBoundary := cap.closestPoint ringCoords coordinate
    let d := sqDist closestOnBoundary coordinate
    let acc2 := match acc with
      | none => if d < tolSq then some (closestOnBoundary, d, ringCoords) else none
      | some (cp, cd, cr) =>
        if d < tolSq ∧ d < cd then some (closestOnBoundary, d, ringCoords)
        else some (cp, cd, cr)
    scanBoundaries cap coordinate tolSq acc2 rest

/-- The consecutive boundary segments (the loop bound `i < length - 1`,
lines 3478-3493). -/
def segmentsOf (coords : List QCoord) : List (QCoord × QCoord) :=
  coords.zip coords.tail

/-- The per-segment refinement scan (lines 3474-3493): closest point on
each individual segment, keeping the strictly closest. -/
def bestSegment (cap : SnapCap) (coordinate : QCoord)
    (acc : Option (QCoord × ℚ)) :
    List (QCoord × QCoord) → Option (QCoord × ℚ)
  | [] => acc
  | (s, e) :: rest =>
    let p := cap.closestPoint [s, e] coordinate
    let d := sqDist p coordinate
    let acc2 := match acc with
      | none => some (p, d)
      | some (bp, bd) => if d < bd then some (p, d) else some (bp, bd)
    bestSegment cap coordinate acc2 rest

/-- The (squared) context-sensitive snap tolerance of `snapToBoundary`
(lines 3429-3437): 35 screen pixels when the raw coordinate lies inside
some other-class polygon, else 10, converted to map units by the
resolution and squared for comparison against squared distances. -/
def snapTolSq (cap : SnapCap) (resolution : ℚ) (selId : Nat)
    (features : List SnapFeature) (coordinate : QCoord) : ℚ :=
  let isInsideOtherClass := (snapCandidates selId features).any fun f =>
    cap.intersectsCoordinate f.ringCoords coordinate
  let snapTolerancePixels : ℚ := if isInsideOtherClass then 35 else 10
  (resolution * snapTolerancePixels) * (resolution * snapTolerancePixels)

/-- `snapToBoundary` (lines 3414-3508).  Returns the (possibly snapped)
coordinate together with the snap-indicator point set by this call
(`none` when no snap occurred; the early no-candidate return leaves the
indicator untouched in the source).  Squared distances compare against
the squared tolerance `snapTolSq`. -/
def snapToBoundary (cap : SnapCap) (resolution : ℚ) (selId : Nat)
    (features : List SnapFeature) (coordinate : QCoord) :
    QCoord × Option QCoord :=
  let existingFeatures := snapCandidates selId features
  let tolSq := snapTolSq cap resolution selId features coordinate
  if existingFeatures.isEmpty then (coordinate, none)
  else
    match scanBoundaries cap coordinate tolSq none existingFeatures with
    | none => (coordinate, none)
    | some (closestPoint, _, boundaryCoords) =>
      match bestSegment cap coordinate none (segmentsOf boundaryCoords) with
      | some (bestPointOnSegment, bestSegmentDistance) =>
        if bestSegmentDistance < tolSq then (bestPointOnSegment, some bestPointOnSegment)
        else (closestPoint, some closestPoint)
      | none => (closestPoint, some closestPoint)

/-! ## History simulation used by the history claims -/

/-- The committed feature of the `k`-th simulated draw-commit. -/
def featureK (k : Nat) : MapFeature :=
  { geom := .poly [((k : Int), 0)]
    classId := some 1
    strokeColor := some "#f00"
    opacity := some 1
    transient := false }

/-- One simulated draw-commit: add a feature, then `saveState`. -/
def commitStep (st : List MapFeature × History) (k : Nat) :
    List MapFeature × History :=
  let store := st.1 ++ [featureK k]
  (store, saveState store st.2)

/-- `n` sequential draw-commits on a fresh document. -/
def runCommits (n : Nat) : List MapFeature × History :=
  (List.range n).foldl commitStep ([], initHistory)

/-- `n` consecutive `undo()` calls. -/
def undoN : Nat → List MapFeature × History → List MapFeature × History
  | 0, st => st
  | n + 1, st => undoN n (undo st.1 st.2)

/-! ## Claim C1: history bound -/

/-- C1, counterexample.  After 60 sequential draw-commits with cap 50,
calling `undo()` 50 times restores the EMPTY store, not the (non-empty)
state after the 10th commit: the initial empty entry and the snapshots of
commits 1-10 were evicted, and the 50th undo runs the index down to -1,
which restores the empty state.  This refutes the claim as stated. -/
theorem c1_undo50_restores_empty_not_commit10 :
    (undoN 50 (runCommits 60)).1 = [] ∧ (runCommits 10).1 ≠ [] := by
  constructor
  · decide
  · decide

/-- C1, amended: 60 sequential draw-commits with cap 50 leave exactly 50
history entries with the current index 49 (pointing at the newest);
eviction of the oldest entry on overflow does not move the index forward
(a 61st commit keeps index 49 and length 50); undoing 49 times restores
the state after the 11th commit (the oldest retained snapshot), and the
50th undo restores the empty state. -/
theorem c1_history_bound_amended :
    (runCommits 60).2.entries.length = 50 ∧
    (runCommits 60).2.index = 49 ∧
    (saveState ((runCommits 60).1 ++ [featureK 60]) (runCommits 60).2).index = 49 ∧
    (saveState ((runCommits 60).1 ++ [featureK 60]) (runCommits 60).2).entries.length = 50 ∧
    (undoN 49 (runCommits 60)).1 = (runCommits 11).1 ∧
    (undoN 50 (runCommits 60)).1 = [] := by
  refine ⟨by decide, by decide, by decide, by decide, by decide, by decide⟩

/-! ## Claim C4: undo to empty -/

/-- C4, counterexample.  A second consecutive `undo()` is NOT a no-op: it
passes the `index < 0` guard (the index is 0), decrements the index to
-1, and that is observable through the undo/redo interface itself.
After one commit (of the feature `featureK 0`) and one undo, `redo()`
restores the committed feature; after a second undo, the same `redo()`
restores the empty entry instead — and the two restored stores differ. -/
theorem c4_second_undo_changes_redo :
    (redo (undoN 1 ([featureK 0], saveState [featureK 0] initHistory)).1
          (undoN 1 ([featureK 0], saveState [featureK 0] initHistory)).2).1 =
      [featureK 0] ∧
    (redo (undoN 2 ([featureK 0], saveState [featureK 0] initHistory)).1
          (undoN 2 ([featureK 0], saveState [featureK 0] initHistory)).2).1 =
      [] ∧
    [featureK 0] ≠ ([] : List MapFeature) := by
  refine ⟨by decide, by decide, by decide⟩

/-- C4, amended: a fresh document's history is exactly one empty entry at
index 0; after one draw-commit (of any store contents), one `undo()`
restores a store with zero features.  A second consecutive `undo()`
leaves the (already empty) store contents and the published
`canUndo`/`canRedo` flags unchanged, but it is not a no-op: it decrements
the history index from 0 to -1, so a subsequent `redo()` restores the
empty state instead of the committed one.  A third consecutive `undo()`
(at index -1) is a guaranteed no-op. -/
theorem c4_undo_to_empty :
    initHistory.entries = [[]] ∧ initHistory.index = 0 ∧
    ∀ store : List MapFeature,
      (undo store (saveState store initHistory)).1 = [] ∧
      (undoN 2 (store, saveState store initHistory)).1 =
        (undoN 1 (store, saveState store initHistory)).1 ∧
      canUndo (undoN 2 (store, saveState store initHistory)).2 =
        canUndo (undoN 1 (store, saveState store initHistory)).2 ∧
      canRedo (undoN 2 (store, saveState store initHistory)).2 =
        canRedo (undoN 1 (store, saveState store initHistory)).2 ∧
      (undoN 1 (store, saveState store initHistory)).2.index = 0 ∧
      (undoN 2 (store, saveState store initHistory)).2.index = -1 ∧
      (redo (undoN 1 (store, saveState store initHistory)).1
            (undoN 1 (store, saveState store initHistory)).2).1 =
        restoreState (snapshotOf store) ∧
      (redo (undoN 2 (store, saveState store initHistory)).1
            (undoN 2 (store, saveState store initHistory)).2).1 = [] ∧
      undo (undoN 2 (store, saveState store initHistory)).1
           (undoN 2 (store, saveState store initHistory)).2 =
        undoN 2 (store, saveState store initHistory) := by
  refine ⟨rfl, rfl, fun store => ?_⟩
  have hsave : saveState store initHistory = ⟨[[], snapshotOf store], 1⟩ := by
    simp [saveState, initHistory, maxHistorySize]
  have h1 : undo store (saveState store initHistory) =
      ([], ⟨[[], snapshotOf store], 0⟩) := by
    rw [hsave]
    simp [undo, restoreState]
  have h2 : undo ([] : List MapFeature) (⟨[[], snapshotOf store], 0⟩ : History) =
      ([], ⟨[[], snapshotOf store], -1⟩) := by
    simp [undo, restoreState]
  have hr1 : redo ([] : List MapFeature) (⟨[[], snapshotOf store], 0⟩ : History) =
      (restoreState (snapshotOf store), ⟨[[], snapshotOf store], 1⟩) := by
    simp [redo]
  have hr2 : redo ([] : List MapFeature) (⟨[[], snapshotOf store], -1⟩ : History) =
      ([], ⟨[[], snapshotOf store], 0⟩) := by
    simp [redo, restoreState]
  have h3 : undo ([] : List MapFeature) (⟨[[], snapshotOf store], -1⟩ : History) =
      ([], ⟨[[], snapshotOf store], -1⟩) := by
    simp [undo]
  refine ⟨by rw [h1], ?_, ?_, ?_, ?_, ?_, ?_, ?_, ?_⟩ <;>
    simp [undoN, h1, h2, hr1, hr2, h3, canUndo, canRedo]

/-! ## Claim C10: canUndo does not imply undo changes state -/

/-- C10: when the history index is negative while entries still exist
(the state reached by undoing back to the empty state), the published
`canUndo` flag is still `true`, yet `undo()` is a guaranteed no-op: it
returns the store and history unchanged.  So `canUndo = true` does not
imply that `undo()` changes state. -/
theorem c10_canUndo_without_effect (store : List MapFeature) (h : History)
    (hidx : h.index < 0) (hne : h.entries ≠ []) :
    canUndo h = true ∧ undo store h = (store, h) := by
  constructor
  · have : 0 < h.entries.length := List.length_pos.mpr hne
    simp [canUndo, this]
  · simp [undo, hidx]

/-- C10, witness: the state after one draw-commit and two undos has
index -1 and two surviving entries; `canUndo` is `true` there and a
further `undo()` returns everything unchanged. -/
theorem c10_canUndo_without_effect_witness :
    canUndo (undoN 2 (runCommits 1)).2 = true ∧
    undo (undoN 2 (runCommits 1)).1 (undoN 2 (runCommits 1)).2 =
      ((undoN 2 (runCommits 1)).1, (undoN 2 (runCommits 1)).2) :=
  c10_canUndo_without_effect (undoN 2 (runCommits 1)).1 (undoN 2 (runCommits 1)).2
    (by decide) (by decide)

/-! ## Claim C3: transient exclusion -/

/-- A demonstration paint class. -/
def demoClass : PaintClass := ⟨1, "veg", "#00ff00"⟩

/-- C3, counterexample.  The rubber-band preview line built by
`updatePreview` does NOT carry the transient flag (`TRANSIENT_KEY` is
never set on it), and a `saveState` snapshot or `exportGeoJSON` taken
while it is in the store includes it.  This refutes the claim that every
live-preview feature carries the transient flag and is excluded. -/
theorem c3_preview_line_not_transient :
    (previewLineFeature demoClass 1 [(0, 0), (1, 1)]).transient = false ∧
    serializeFeature (previewLineFeature demoClass 1 [(0, 0), (1, 1)]) ∈
      snapshotOf [previewLineFeature demoClass 1 [(0, 0), (1, 1)]] ∧
    exportGeoJSON [previewLineFeature demoClass 1 [(0, 0), (1, 1)]] =
      some [serializeFeature (previewLineFeature demoClass 1 [(0, 0), (1, 1)])] := by
  refine ⟨rfl, by decide, by decide⟩

/-- C3, amended: the snap-indicator point carries the transient flag, but
the rubber-band preview line does not; features carrying the flag are
never included in `saveState` snapshots nor in `exportGeoJSON` output
(removing such a feature changes neither), while a snapshot or export
taken mid-drawing includes the in-progress preview line. -/
theorem c3_transient_exclusion_amended :
    (∀ c : QCoord, (snapIndicatorFeature c).transient = true) ∧
    (∀ (cls : PaintClass) (op : ℚ) (lineCoords : List QCoord),
      (previewLineFeature cls op lineCoords).transient = false) ∧
    (∀ (pre post : List MapFeature) (f : MapFeature), f.transient = true →
      snapshotOf (pre ++ f :: post) = snapshotOf (pre ++ post) ∧
      exportGeoJSON (pre ++ f :: post) = exportGeoJSON (pre ++ post)) := by
  refine ⟨fun _ => rfl, fun _ _ _ => rfl, fun pre post f hf => ⟨?_, ?_⟩⟩
  · simp [snapshotOf, List.filter_append, hf]
  · simp [exportGeoJSON, List.filter_append, hf]

/-- C3, witness: the amended theorem applied to the snap indicator sitting
between two committed features. -/
theorem c3_transient_exclusion_witness :
    snapshotOf ([featureK 0] ++ snapIndicatorFeature (0, 0) :: [featureK 1]) =
      snapshotOf ([featureK 0] ++ [featureK 1]) ∧
    exportGeoJSON ([featureK 0] ++ snapIndicatorFeature (0, 0) :: [featureK 1]) =
      exportGeoJSON ([featureK 0] ++ [featureK 1]) :=
  c3_transient_exclusion_amended.2.2 [featureK 0] [featureK 1]
    (snapIndicatorFeature (0, 0)) rfl

/-! ## Claim C5: ring closure -/

/-- C5, counterexample.  A freehand stroke that ends exactly on its first
point — pointer-down at (0,0), drags to (4,0) and back to (0,0), each
appended because the squared step 16 is at least the squared 3-pixel
threshold 9 at resolution 1 — commits a ring of exactly 3 coordinates
(the accumulated buffer is already closed, so no coordinate is appended),
refuting the claimed lower bound of 4. -/
theorem c5_three_coordinate_ring :
    freehandStroke 1 (0, 0) [(4, 0), (0, 0)] = [(0, 0), (4, 0), (0, 0)] ∧
    commitRing (freehandStroke 1 (0, 0) [(4, 0), (0, 0)]) =
      some [(0, 0), (4, 0), (0, 0)] ∧
    ¬ 4 ≤ (([(0, 0), (4, 0), (0, 0)] : List QCoord)).length := by
  have hstroke : freehandStroke 1 (0, 0) [(4, 0), (0, 0)] =
      [(0, 0), (4, 0), (0, 0)] := by
    norm_num [freehandStroke, updateStroke, sqDist]
  refine ⟨hstroke, ?_, by decide⟩
  rw [hstroke]
  norm_num [commitRing, closeRing]

/-- `closeRing` on a non-empty list, with the match reduced. -/
theorem closeRing_cons (x : QCoord) (xs : List QCoord) :
    closeRing (x :: xs) =
      if x = (x :: xs).getLast (by simp) then x :: xs
      else (x :: xs) ++ [x] := by
  rw [closeRing, List.head?_cons, List.getLast?_eq_getLast _ (by simp)]

/-- C5, amended: every polygon committed by either drawing mode (at least
3 accumulated points) has a ring whose first coordinate equals its last
and whose length is at least 3; the length is at least 4 (3 distinct plus
the closing duplicate) whenever the accumulated points did not already
end exactly on the first point, but when they did, the ring is the
accumulated list itself and can have exactly 3 coordinates. -/
theorem c5_ring_closure_amended (coords ring : List QCoord)
    (hc : commitRing coords = some ring) :
    ring.head? = ring.getLast? ∧ 3 ≤ ring.length ∧
    (coords.head? ≠ coords.getLast? → 4 ≤ ring.length) := by
  rw [commitRing] at hc
  split at hc
  case isFalse => exact absurd hc (by simp)
  case isTrue hlen =>
    injection hc with hc
    obtain ⟨x, xs, rfl⟩ : ∃ x xs, coords = x :: xs := by
      cases coords with
      | nil => simp at hlen
      | cons a l => exact ⟨a, l, rfl⟩
    have hne : (x :: xs : List QCoord) ≠ [] := by simp
    have hlast : (x :: xs).getLast? = some ((x :: xs).getLast hne) :=
      List.getLast?_eq_getLast _ hne
    rw [closeRing_cons] at hc
    by_cases hx : x = (x :: xs).getLast hne
    · rw [if_pos hx] at hc
      subst hc
      refine ⟨by rw [List.head?_cons, hlast, ← hx], hlen, fun hcon => ?_⟩
      exact absurd (by rw [List.head?_cons, hlast, ← hx]) hcon
    · rw [if_neg hx] at hc
      subst hc
      refine ⟨?_, ?_, fun _ => ?_⟩
      · rw [List.getLast?_concat]
        simp
      · simp only [List.length_append, List.length_cons] at hlen ⊢
        omega
      · simp only [List.length_cons] at hlen
        simp only [List.length_append, List.length_cons]
        omega

/-- C5, witness: the amended closure theorem at a 3-click square-corner
polygon commit, whose ring gains the closing duplicate. -/
theorem c5_ring_closure_witness :
    commitRing [(0, 0), (4, 0), (0, 4)] =
      some [(0, 0), (4, 0), (0, 4), (0, 0)] ∧
    ([(0, 0), (4, 0), (0, 4), (0, 0)] : List QCoord).head? =
      ([(0, 0), (4, 0), (0, 4), (0, 0)] : List QCoord).getLast? ∧
    3 ≤ ([(0, 0), (4, 0), (0, 4), (0, 0)] : List QCoord).length :=
  ⟨by decide,
   (c5_ring_closure_amended [(0, 0), (4, 0), (0, 4)] _ (by decide)).1,
   (c5_ring_closure_amended [(0, 0), (4, 0), (0, 4)] _ (by decide)).2.1⟩

/-! ## Claim C9: erase semantics -/

/-- Removing a present feature removes exactly one occurrence. -/
theorem removeFirstFeature_length {l : List MapFeature} {f : MapFeature}
    (hf : f ∈ l) : (removeFirstFeature l f).length + 1 = l.length := by
  induction l with
  | nil => cases hf
  | cons a rest ih =>
    rw [removeFirstFeature]
    by_cases hx : a = f
    · simp [hx]
    · have hmem : f ∈ rest := by
        rcases List.mem_cons.mp hf with h1 | h1
        · exact absurd h1.symm hx
        · exact h1
      simp [hx, ih hmem]

/-- A `saveState` with the index at the last entry and the history under
the cap appends exactly one entry. -/
theorem saveState_appends_one (store : List MapFeature) (h : History)
    (hidx : h.index = (h.entries.length : Int) - 1)
    (hlen : h.entries.length < maxHistorySize) :
    (saveState store h).entries.length = h.entries.length + 1 := by
  rw [saveState]
  simp only [hidx, lt_irrefl, if_false]
  rw [if_neg (by simpa using Nat.succ_le_of_lt hlen)]
  simp

/-- C9: the erase click hit-tests at tolerance 5, ignores transient
features, and: if no non-transient feature is hit, it leaves store and
history unchanged; otherwise it removes exactly the topmost (first)
non-transient hit from the store and triggers exactly one history
snapshot (one entry is appended when the history index is at the last
entry and the cap is not reached). -/
theorem c9_erase_semantics (hitTest : (Int × Int) → Nat → List MapFeature)
    (pixel : Int × Int) (store : List MapFeature) (h : History) :
    eraseHitTolerance = 5 ∧
    ((hitTest pixel eraseHitTolerance).filter (fun f => !f.transient) = [] →
      eraseClick hitTest pixel store h = (store, h)) ∧
    (∀ f rest,
      (hitTest pixel eraseHitTolerance).filter (fun f => !f.transient) = f :: rest →
      eraseClick hitTest pixel store h =
        (removeFirstFeature store f, saveState (removeFirstFeature store f) h)) ∧
    (∀ f rest,
      (hitTest pixel eraseHitTolerance).filter (fun f => !f.transient) = f :: rest →
      f ∈ store → h.index = (h.entries.length : Int) - 1 →
      h.entries.length < maxHistorySize →
      (eraseClick hitTest pixel store h).1.length + 1 = store.length ∧
      (eraseClick hitTest pixel store h).2.entries.length = h.entries.length + 1) := by
  refine ⟨rfl, ?_, ?_, ?_⟩
  · intro hnil
    rw [eraseClick]
    simp [hnil]
  · intro f rest hcons
    rw [eraseClick]
    simp [hcons]
  · intro f rest hcons hmem hidx hlen
    rw [eraseClick]
    simp only [hcons, List.head?_cons]
    exact ⟨removeFirstFeature_length hmem, saveState_appends_one _ _ hidx hlen⟩

/-- C9, witness: an erase click whose hit list is a transient snap
indicator on top of a committed feature removes exactly that committed
feature and appends exactly one history entry. -/
theorem c9_erase_semantics_witness :
    (eraseClick (fun _ _ => [snapIndicatorFeature (0, 0), featureK 0]) (0, 0)
      [featureK 1, featureK 0] initHistory).1.length + 1 = 2 ∧
    (eraseClick (fun _ _ => [snapIndicatorFeature (0, 0), featureK 0]) (0, 0)
      [featureK 1, featureK 0] initHistory).2.entries.length = 1 + 1 :=
  (c9_erase_semantics (fun _ _ => [snapIndicatorFeature (0, 0), featureK 0])
      (0, 0) [featureK 1, featureK 0] initHistory).2.2.2 (featureK 0) []
    (by decide) (by decide) (by decide) (by decide)

/-! ## Claim C2: merge policy order -/

/-- Modelled from the spec for comparison with the source (claim C2): the
claimed policy order — step 1 unions the new polygon with all intersecting
or touching same-class polygons, step 2 then subtracts every intersecting
or touching other-class polygon from the possibly-just-merged geometry. -/
def specMergeThenTrim (selId : Nat) (store : List MapFeature) (raw : Geom) : Geom :=
  let overlapping := store.filter (fun f =>
    decide (f.classId = some selId) && f.geom.isPoly && cellOverlap raw f.geom.cells)
  let merged := overlapping.foldl (fun g f => cellUnion g f.geom.cells) raw
  let others := store.filter (fun f =>
    !f.transient && f.classId.isSome && decide (f.classId ≠ some selId) && f.geom.isPoly)
  others.foldl
    (fun g f => if cellOverlap g f.geom.cells then cellDiff g f.geom.cells else g) merged

/-- Modelled from the amended claim: the order the source actually uses —
the cross-class trim subtracts other-class polygons from the raw polygon
first, and the same-class union is then applied to the trimmed geometry. -/
def specTrimThenMerge (selId : Nat) (store : List MapFeature) (raw : Geom) : Geom :=
  let others := store.filter (fun f =>
    !f.transient && f.classId.isSome && decide (f.classId ≠ some selId) && f.geom.isPoly)
  let trimmed := others.foldl
    (fun g f => if cellOverlap g f.geom.cells then cellDiff g f.geom.cells else g) raw
  let overlapping := store.filter (fun f =>
    decide (f.classId = some selId) && f.geom.isPoly && cellOverlap trimmed f.geom.cells)
  overlapping.foldl (fun g f => cellUnion g f.geom.cells) trimmed

/-- An existing same-class (id 1) polygon over cells {(2,0),(3,0)}. -/
def bFeat : MapFeature :=
  { geom := .poly [(2, 0), (3, 0)]
    classId := some 1
    strokeColor := some "#ff0000"
    opacity := some 3
    transient := false }

/-- An existing other-class (id 2) polygon over cells {(1,0),(3,0)}. -/
def cFeat : MapFeature :=
  { geom := .poly [(1, 0), (3, 0)]
    classId := some 2
    strokeColor := some "#0000ff"
    opacity := some 5
    transient := false }

/-- C2, counterexample.  Committing the polygon {(0,0),(1,0),(2,0)} for
class 1 over a store holding `bFeat` (class 1, {(2,0),(3,0)}) and `cFeat`
(class 2, {(1,0),(3,0)}): the source trims the raw polygon by `cFeat`
first (giving {(0,0),(2,0)}) and then unions with `bFeat`, producing
{(0,0),(2,0),(3,0)} — the cell (3,0) owned by the other class survives in
the merged geometry.  Under the claimed order (union first, then trim the
merged geometry) the result would be {(0,0),(2,0)}.  So the geometry that
gets trimmed is NOT the result of the union. -/
theorem c2_trim_runs_before_union :
    (commitPolygonGeom cellOps demoClass 7 [bFeat, cFeat] none
        [(0, 0), (1, 0), (2, 0)]).map (·.geom) =
      [.poly [(1, 0), (3, 0)], .poly [(0, 0), (2, 0), (3, 0)]] ∧
    specMergeThenTrim demoClass.id [bFeat, cFeat] [(0, 0), (1, 0), (2, 0)] =
      [(0, 0), (2, 0)] ∧
    (FGeom.poly [(0, 0), (2, 0), (3, 0)] : FGeom) ≠ .poly [(0, 0), (2, 0)] := by
  refine ⟨by decide, by decide, by decide⟩

/-- C2, amended: on a click-to-vertex polygon commit the cross-class trim
is performed FIRST, subtracting every intersecting or touching
non-transient other-class polygon from the raw polygon, and the
same-class union is then applied to the trimmed geometry (so the geometry
that gets merged is the result of the trim, not the other way round); a
new polygon with no same-class overlaps is added as the trimmed geometry
as-is, having still passed through the trim step.  Shown on the
counterexample store, where the two orders differ, and on a store with no
same-class overlap, where the added feature carries the trimmed
geometry. -/
theorem c2_merge_policy_order_amended :
    commitPolygonGeom cellOps demoClass 7 [bFeat, cFeat] none
        [(0, 0), (1, 0), (2, 0)] =
      [cFeat,
       { geom := .poly (specTrimThenMerge demoClass.id [bFeat, cFeat]
           [(0, 0), (1, 0), (2, 0)])
         classId := some 1
         strokeColor := some "#00ff00"
         opacity := some 3
         transient := false }] ∧
    specTrimThenMerge demoClass.id [bFeat, cFeat] [(0, 0), (1, 0), (2, 0)] ≠
      specMergeThenTrim demoClass.id [bFeat, cFeat] [(0, 0), (1, 0), (2, 0)] ∧
    commitPolygonGeom cellOps demoClass 7 [cFeat] none [(0, 0), (1, 0), (2, 0)] =
      [cFeat,
       { geom := .poly (cellDiff [(0, 0), (1, 0), (2, 0)] [(1, 0), (3, 0)])
         classId := some 1
         strokeColor := some "#00ff00"
         opacity := some 7
         transient := false }] := by
  refine ⟨by decide, by decide, by decide⟩

/-! ## Claim C8: geometry-failure degradation -/

/-- C8: if the geometry capability is not loaded (`unavailableOps`), or
every union/difference/repair/conversion operation throws
(`failingOps`), a click-to-vertex commit still succeeds: the raw polygon
is added to the store as-is with the selected class's id/color and the
global opacity, no pre-existing feature is removed or modified, and no
error propagates (the embedding is a total function). -/
theorem c8_failure_keeps_raw_polygon (cls : PaintClass) (gOp : ℚ)
    (store : List MapFeature) (raw : Geom) :
    commitPolygonGeom unavailableOps cls gOp store none raw =
      store ++ [{ geom := .poly raw
                  classId := some cls.id
                  strokeColor := some cls.color
                  opacity := some gOp
                  transient := false }] ∧
    commitPolygonGeom failingOps cls gOp store none raw =
      store ++ [{ geom := .poly raw
                  classId := some cls.id
                  strokeColor := some cls.color
                  opacity := some gOp
                  transient := false }] := by
  constructor
  · simp [commitPolygonGeom, commitTrim, mergeOverlappingPolygons, unavailableOps,
      cellOps]
  · have htrim : commitTrim failingOps cls.id store raw = raw := by
      simp [commitTrim, failingOps]
    have hmerge : mergeOverlappingPolygons failingOps (some cls) gOp store raw cls.id =
        (store, []) := by
      by_cases hemp : (store.filter (fun f =>
          decide (f.classId = some cls.id) && f.geom.isPoly)).isEmpty
      · simp [mergeOverlappingPolygons, failingOps, hemp]
      · simp [mergeOverlappingPolygons, failingOps, hemp]
    simp [commitPolygonGeom, htrim, hmerge]

/-! ## Claim C6: same-class union result -/

/-- `removeFirstFeature` leaves a distinct head in place. -/
theorem removeFirstFeature_cons_of_ne {a f : MapFeature} (ys : List MapFeature)
    (h : a ≠ f) :
    removeFirstFeature (a :: ys) f = a :: removeFirstFeature ys f := by
  simp [removeFirstFeature, h]

/-- A fold of removals over features all distinct from the head leaves
the head in place. -/
theorem foldl_removeFirst_cons (hits : List MapFeature) (a : MapFeature) :
    ∀ ys : List MapFeature, (∀ f ∈ hits, f ≠ a) →
      hits.foldl removeFirstFeature (a :: ys) =
        a :: hits.foldl removeFirstFeature ys := by
  induction hits with
  | nil => intro ys _; rfl
  | cons b bs ih =>
    intro ys h
    have hba : b ≠ a := h b (by simp)
    simp only [List.foldl_cons]
    rw [removeFirstFeature_cons_of_ne ys (fun hh => hba hh.symm)]
    exact ih _ (fun f hf => h f (by simp [hf]))

/-- On a duplicate-free store, removing every feature of a filter one by
one is filtering them all out (the removals of
`mergeOverlappingPolygons` remove exactly the overlapping originals). -/
theorem foldl_removeFirst_filter (p : MapFeature → Bool) :
    ∀ store : List MapFeature, store.Nodup →
      (store.filter p).foldl removeFirstFeature store =
        store.filter (fun f => !p f) := by
  intro store
  induction store with
  | nil => intro _; rfl
  | cons a rest ih =>
    intro hnd
    have hnr : a ∉ rest := (List.nodup_cons.mp hnd).1
    have hrest := ih (List.nodup_cons.mp hnd).2
    by_cases hpa : p a
    · rw [List.filter_cons_of_pos (by simpa using hpa)]
      simp only [List.foldl_cons]
      rw [show removeFirstFeature (a :: rest) a = rest from by
        simp [removeFirstFeature]]
      rw [hrest, List.filter_cons_of_neg (by simpa using hpa)]
    · rw [List.filter_cons_of_neg (by simpa using hpa)]
      have hne : ∀ f ∈ rest.filter p, f ≠ a := by
        intro f hf hfa
        exact hnr (hfa ▸ (List.mem_filter.mp hf).1)
      rw [foldl_removeFirst_cons _ a rest hne, hrest,
        List.filter_cons_of_pos (by simpa using hpa)]

/-- Filtering by a conjunction is insensitive to its order. -/
theorem filter_and_comm (p q : MapFeature → Bool) (l : List MapFeature) :
    l.filter (fun f => p f && q f) = l.filter (fun f => q f && p f) := by
  induction l with
  | nil => rfl
  | cons a rest ih =>
    cases hpa : p a <;> cases hqa : q a <;>
      simp [List.filter_cons, hpa, hqa, ih]

/-- The total cell instance answers its conversions untouched. -/
theorem cellOps_readGeom (g : Geom) : cellOps.readGeom g = .ok g := rfl

theorem cellOps_writeRead (g : Geom) : cellOps.writeRead g = .ok g := rfl

theorem cellOps_available : cellOps.available = true := rfl

theorem tryRepair_cellOps (g : Geom) : tryRepair cellOps g = g := rfl

/-- `collectOverlaps` under the total cell instance collects exactly the
features whose geometry intersects or touches the new geometry, in
order, together with their geometries. -/
theorem collectOverlaps_cellOps (newG : Geom) :
    ∀ l : List MapFeature,
      collectOverlaps cellOps newG l =
        .ok ((l.filter (fun f => cellOverlap newG f.geom.cells)).map (·.geom.cells),
             l.filter (fun f => cellOverlap newG f.geom.cells)) := by
  intro l
  induction l with
  | nil => rfl
  | cons f rest ih =>
    rw [collectOverlaps, ih]
    by_cases hov : cellOverlap newG f.geom.cells
    · rw [List.filter_cons_of_pos (by simpa using hov)]
      have : (cellIntersects newG f.geom.cells || cellTouches newG f.geom.cells) = true := hov
      simp [cellOps, tryRepair, this]
    · rw [List.filter_cons_of_neg (by simpa using hov)]
      have : (cellIntersects newG f.geom.cells || cellTouches newG f.geom.cells) = false := by
        simpa [cellOverlap] using hov
      simp [cellOps, tryRepair, this]

/-- C6: under the total cell instance, when the newly drawn polygon
intersects or touches at least one existing same-class polygon feature,
`mergeOverlappingPolygons` removes exactly those overlapping originals
from the store (first occurrences; on a duplicate-free store this is
filtering them out) and returns exactly one merged feature, carrying the
same classId, the stroke color `selectedClass.color || first removed
feature's strokeColor || "#ff7f50"`, and the first removed feature's
opacity (falling back to the global default). -/
theorem c6_same_class_union (cls : PaintClass) (classId : Nat) (gOp : ℚ)
    (store : List MapFeature) (raw : Geom)
    (hne : store.filter (fun f =>
      (decide (f.classId = some classId) && f.geom.isPoly) &&
        cellOverlap raw f.geom.cells) ≠ []) :
    mergeOverlappingPolygons cellOps (some cls) gOp store raw classId =
      ((store.filter (fun f =>
          (decide (f.classId = some classId) && f.geom.isPoly) &&
            cellOverlap raw f.geom.cells)).foldl removeFirstFeature store,
       [{ geom := .poly (mergeUnion cellOps (raw ::
            (store.filter (fun f =>
              (decide (f.classId = some classId) && f.geom.isPoly) &&
                cellOverlap raw f.geom.cells)).map (·.geom.cells)))
          classId := some classId
          strokeColor := some (jsOrColor (some cls.color)
            (jsOrColor (((store.filter (fun f =>
              (decide (f.classId = some classId) && f.geom.isPoly) &&
                cellOverlap raw f.geom.cells)).head?).bind (·.strokeColor)) "#ff7f50"))
          opacity := some ((((store.filter (fun f =>
            (decide (f.classId = some classId) && f.geom.isPoly) &&
              cellOverlap raw f.geom.cells)).head?).bind (·.opacity)).getD gOp)
          transient := false }]) ∧
    (store.Nodup →
      (store.filter (fun f =>
        (decide (f.classId = some classId) && f.geom.isPoly) &&
          cellOverlap raw f.geom.cells)).foldl removeFirstFeature store =
        store.filter (fun f => !((decide (f.classId = some classId) && f.geom.isPoly) &&
          cellOverlap raw f.geom.cells))) := by
  have hff : (store.filter (fun f => decide (f.classId = some classId) && f.geom.isPoly)).filter
      (fun f => cellOverlap raw f.geom.cells) =
      store.filter (fun f =>
        (decide (f.classId = some classId) && f.geom.isPoly) &&
          cellOverlap raw f.geom.cells) := by
    rw [List.filter_filter]
    exact filter_and_comm _ _ store
  refine ⟨?_, fun hnd => foldl_removeFirst_filter _ store hnd⟩
  have hexist : store.filter (fun f => decide (f.classId = some classId) && f.geom.isPoly) ≠ [] := by
    intro hcon
    rw [← hff, hcon] at hne
    exact hne rfl
  rw [mergeOverlappingPolygons]
  simp only [cellOps_available, Bool.not_true, Bool.false_eq_true, if_false,
    cellOps_readGeom, tryRepair_cellOps, cellOps_writeRead]
  rw [collectOverlaps_cellOps raw, hff]
  simp [List.isEmpty_iff, hexist, hne]

/-- An existing same-class polygon over cell {(0,0)} with stored color
and opacity. -/
def w1Feat : MapFeature :=
  { geom := .poly [(0, 0)]
    classId := some 2
    strokeColor := some "#123456"
    opacity := some 3
    transient := false }

/-- An existing same-class polygon over cell {(5,5)}, far from the drawn
polygon. -/
def w2Feat : MapFeature :=
  { geom := .poly [(5, 5)]
    classId := some 2
    strokeColor := none
    opacity := none
    transient := false }

/-- C6, witness: drawing {(0,0),(1,0)} for class 2 over `w1Feat` (which
it overlaps) and `w2Feat` (which it does not) removes exactly `w1Feat`
and returns one merged feature with class 2, the selected class's color,
and `w1Feat`'s opacity. -/
theorem c6_same_class_union_witness :
    mergeOverlappingPolygons cellOps (some ⟨2, "w", "#abcdef"⟩) 9
        [w1Feat, w2Feat] [(0, 0), (1, 0)] 2 =
      ([w2Feat],
       [{ geom := .poly [(0, 0), (1, 0)]
          classId := some 2
          strokeColor := some "#abcdef"
          opacity := some 3
          transient := false }]) := by
  have h := (c6_same_class_union ⟨2, "w", "#abcdef"⟩ 2 9 [w1Feat, w2Feat]
    [(0, 0), (1, 0)] (by decide)).1
  rw [h]
  decide

/-! ## Claim C7: boundary snapping -/

/-- The returned point for a winning boundary: the closest point on an
individual segment when it is within tolerance, else the closest point on
the whole ring (the post-scan refinement of lines 3470-3504). -/
def segRefine (cap : SnapCap) (tolSq : ℚ) (coordinate : QCoord)
    (boundaryCoords : List QCoord) : QCoord :=
  match bestSegment cap coordinate none (segmentsOf boundaryCoords) with
  | some (bestPointOnSegment, bestSegmentDistance) =>
    if bestSegmentDistance < tolSq then bestPointOnSegment
    else cap.closestPoint boundaryCoords coordinate
  | none => cap.closestPoint boundaryCoords coordinate

/-- A scan started from a non-empty accumulator never returns `none`. -/
theorem scanBoundaries_some_ne_none (cap : SnapCap) (coordinate : QCoord) (t : ℚ) :
    ∀ (l : List SnapFeature) (p : QCoord × ℚ × List QCoord),
      scanBoundaries cap coordinate t (some p) l ≠ none := by
  intro l
  induction l with
  | nil => intro p h; exact absurd h (by simp [scanBoundaries])
  | cons f rest ih =>
    intro p h
    rw [scanBoundaries] at h
    obtain ⟨cp, cd, cr⟩ := p
    by_cases hd : sqDist (cap.closestPoint f.ringCoords coordinate) coordinate < t ∧
        sqDist (cap.closestPoint f.ringCoords coordinate) coordinate < cd
    · rw [if_pos hd] at h
      exact ih _ h
    · rw [if_neg hd] at h
      exact ih _ h
/-- A scan returning `none` started from `none` and saw no candidate
within tolerance. -/
theorem scanBoundaries_eq_none (cap : SnapCap) (coordinate : QCoord) (t : ℚ) :
    ∀ (l : List SnapFeature) (acc : Option (QCoord × ℚ × List QCoord)),
      scanBoundaries cap coordinate t acc l = none →
      acc = none ∧ ∀ f ∈ l,
        ¬ sqDist (cap.closestPoint f.ringCoords coordinate) coordinate < t := by
  intro l
  induction l with
  | nil =>
    intro acc h
    refine ⟨by simpa [scanBoundaries] using h, by simp⟩
  | cons f rest ih =>
    intro acc h
    cases acc with
    | none =>
      rw [scanBoundaries] at h
      by_cases hd : sqDist (cap.closestPoint f.ringCoords coordinate) coordinate < t
      · rw [if_pos hd] at h
        exact absurd h (scanBoundaries_some_ne_none cap coordinate t rest _)
      · rw [if_neg hd] at h
        refine ⟨rfl, fun g hg => ?_⟩
        rcases List.mem_cons.mp hg with rfl | hg2
        · exact hd
        · exact (ih _ h).2 g hg2
    | some p =>
      obtain ⟨p1, p2, p3⟩ := p
      rw [scanBoundaries] at h
      by_cases hd : sqDist (cap.closestPoint f.ringCoords coordinate) coordinate < t ∧
          sqDist (cap.closestPoint f.ringCoords coordinate) coordinate < p2
      · rw [if_pos hd] at h
        exact absurd h (scanBoundaries_some_ne_none cap coordinate t rest _)
      · rw [if_neg hd] at h
        exact absurd h (scanBoundaries_some_ne_none cap coordinate t rest _)

/-- Conversely, with no candidate within tolerance the scan from `none`
returns `none`. -/
theorem scanBoundaries_none_of_far (cap : SnapCap) (coordinate : QCoord) (t : ℚ) :
    ∀ l : List SnapFeature,
      (∀ f ∈ l, ¬ sqDist (cap.closestPoint f.ringCoords coordinate) coordinate < t) →
      scanBoundaries cap coordinate t none l = none := by
  intro l
  induction l with
  | nil => intro _; rfl
  | cons f rest ih =>
    intro h
    rw [scanBoundaries]
    rw [if_neg (h f (by simp))]
    exact ih fun g hg => h g (by simp [hg])

/-- A winning scan entry originates from the accumulator or from a list
candidate strictly within tolerance. -/
theorem scanBoundaries_origin (cap : SnapCap) (coordinate : QCoord) (t : ℚ) :
    ∀ (l : List SnapFeature) (acc : Option (QCoord × ℚ × List QCoord))
      (cp : QCoord) (cd : ℚ) (cr : List QCoord),
      scanBoundaries cap coordinate t acc l = some (cp, cd, cr) →
      acc = some (cp, cd, cr) ∨
        ∃ f ∈ l, cp = cap.closestPoint f.ringCoords coordinate ∧
          cd = sqDist (cap.closestPoint f.ringCoords coordinate) coordinate ∧
          cr = f.ringCoords ∧ cd < t := by
  intro l
  induction l with
  | nil =>
    intro acc cp cd cr h
    exact Or.inl (by simpa [scanBoundaries] using h)
  | cons f rest ih =>
    intro acc cp cd cr h
    cases acc with
    | none =>
      rw [scanBoundaries] at h
      by_cases hd : sqDist (cap.closestPoint f.ringCoords coordinate) coordinate < t
      · rw [if_pos hd] at h
        rcases ih _ _ _ _ h with h2 | ⟨g, hg, hrest⟩
        · have h4 := Option.some.inj h2
          simp only [Prod.mk.injEq] at h4
          obtain ⟨hcp, hcd, hcr⟩ := h4
          subst hcp
          subst hcd
          subst hcr
          exact Or.inr ⟨f, by simp, rfl, rfl, rfl, hd⟩
        · exact Or.inr ⟨g, by simp [hg], hrest⟩
      · rw [if_neg hd] at h
        rcases ih _ _ _ _ h with h2 | ⟨g, hg, hrest⟩
        · exact absurd h2 (by simp)
        · exact Or.inr ⟨g, by simp [hg], hrest⟩
    | some p =>
      obtain ⟨p1, p2, p3⟩ := p
      rw [scanBoundaries] at h
      by_cases hd : sqDist (cap.closestPoint f.ringCoords coordinate) coordinate < t ∧
          sqDist (cap.closestPoint f.ringCoords coordinate) coordinate < p2
      · rw [if_pos hd] at h
        rcases ih _ _ _ _ h with h2 | ⟨g, hg, hrest⟩
        · have h4 := Option.some.inj h2
          simp only [Prod.mk.injEq] at h4
          obtain ⟨hcp, hcd, hcr⟩ := h4
          subst hcp
          subst hcd
          subst hcr
          exact Or.inr ⟨f, by simp, rfl, rfl, rfl, hd.1⟩
        · exact Or.inr ⟨g, by simp [hg], hrest⟩
      · rw [if_neg hd] at h
        rcases ih _ _ _ _ h with h2 | ⟨g, hg, hrest⟩
        · exact Or.inl h2
        · exact Or.inr ⟨g, by simp [hg], hrest⟩

/-- The winning scan distance is minimal: no list candidate beats it
within tolerance, and it never exceeds the accumulator distance. -/
theorem scanBoundaries_min (cap : SnapCap) (coordinate : QCoord) (t : ℚ) :
    ∀ (l : List SnapFeature) (acc : Option (QCoord × ℚ × List QCoord))
      (cp : QCoord) (cd : ℚ) (cr : List QCoord),
      scanBoundaries cap coordinate t acc l = some (cp, cd, cr) →
      (∀ g ∈ l, cd ≤ sqDist (cap.closestPoint g.ringCoords coordinate) coordinate ∨
        ¬ sqDist (cap.closestPoint g.ringCoords coordinate) coordinate < t) ∧
      (∀ (p1 : QCoord) (p2 : ℚ) (p3 : List QCoord),
        acc = some (p1, p2, p3) → cd ≤ p2) := by
  intro l
  induction l with
  | nil =>
    intro acc cp cd cr h
    refine ⟨by simp, fun p1 p2 p3 hacc => ?_⟩
    rw [hacc] at h
    rw [scanBoundaries] at h
    have h4 := Option.some.inj h
    simp only [Prod.mk.injEq] at h4
    rw [h4.2.1]
  | cons f rest ih =>
    intro acc cp cd cr h
    cases acc with
    | none =>
      rw [scanBoundaries] at h
      by_cases hd : sqDist (cap.closestPoint f.ringCoords coordinate) coordinate < t
      · rw [if_pos hd] at h
        obtain ⟨hrest, hacc⟩ := ih _ _ _ _ h
        have hcdf : cd ≤ sqDist (cap.closestPoint f.ringCoords coordinate) coordinate :=
          hacc _ _ _ rfl
        refine ⟨fun g hg => ?_, fun _ _ _ hacc2 => by cases hacc2⟩
        rcases List.mem_cons.mp hg with rfl | hg2
        · exact Or.inl hcdf
        · exact hrest g hg2
      · rw [if_neg hd] at h
        obtain ⟨hrest, _⟩ := ih _ _ _ _ h
        refine ⟨fun g hg => ?_, fun _ _ _ hacc2 => by cases hacc2⟩
        rcases List.mem_cons.mp hg with rfl | hg2
        · exact Or.inr hd
        · exact hrest g hg2
    | some p =>
      obtain ⟨p1, p2, p3⟩ := p
      rw [scanBoundaries] at h
      by_cases hd : sqDist (cap.closestPoint f.ringCoords coordinate) coordinate < t ∧
          sqDist (cap.closestPoint f.ringCoords coordinate) coordinate < p2
      · rw [if_pos hd] at h
        obtain ⟨hrest, hacc⟩ := ih _ _ _ _ h
        have hcdf : cd ≤ sqDist (cap.closestPoint f.ringCoords coordinate) coordinate :=
          hacc _ _ _ rfl
        refine ⟨fun g hg => ?_, fun q1 q2 q3 hacc2 => ?_⟩
        · rcases List.mem_cons.mp hg with rfl | hg2
          · exact Or.inl hcdf
          · exact hrest g hg2
        · have h4 := Option.some.inj hacc2
          simp only [Prod.mk.injEq] at h4
          rw [← h4.2.1]
          exact le_of_lt (lt_of_le_of_lt hcdf hd.2)
      · rw [if_neg hd] at h
        obtain ⟨hrest, hacc⟩ := ih _ _ _ _ h
        have hcdp : cd ≤ p2 := hacc _ _ _ rfl
        refine ⟨fun g hg => ?_, fun q1 q2 q3 hacc2 => ?_⟩
        · rcases List.mem_cons.mp hg with rfl | hg2
          · rcases Decidable.not_and_iff_or_not.mp hd with h1 | h1
            · exact Or.inr h1
            · exact Or.inl (le_trans hcdp (not_lt.mp h1))
          · exact hrest g hg2
        · have h4 := Option.some.inj hacc2
          simp only [Prod.mk.injEq] at h4
          rw [← h4.2.1]
          exact hcdp

/-- C7: boundary snapping.  (1) Snapping considers only committed
polygons of a class different from the selected one: a feature failing
the candidate filter (classId absent, classId equal to the selected
class, or non-polygon geometry — which covers the transient preview line
and snap indicator) never affects the result.  (2) A snap occurs exactly
when some candidate's closest boundary point lies strictly within the
context-sensitive tolerance `snapTolSq` — 35 screen pixels (squared, in
map units) when the raw coordinate lies inside some other-class polygon,
else 10.  (3) When a snap occurs, the winning polygon is one whose
closest boundary point is globally closest among all candidates, and the
returned point is its per-segment refinement (`segRefine`): the closest
point on an individual boundary segment when within tolerance, else the
closest point on the whole ring. -/
theorem c7_boundary_snapping (cap : SnapCap) (resolution : ℚ) (selId : Nat)
    (features : List SnapFeature) (coordinate : QCoord) :
    (∀ (pre post : List SnapFeature) (f : SnapFeature),
      (f.classId.isSome && decide (f.classId ≠ some selId) && f.ring.isSome) = false →
      snapToBoundary cap resolution selId (pre ++ f :: post) coordinate =
        snapToBoundary cap resolution selId (pre ++ post) coordinate) ∧
    ((snapToBoundary cap resolution selId features coordinate).2.isSome = true ↔
      ∃ f ∈ snapCandidates selId features,
        sqDist (cap.closestPoint f.ringCoords coordinate) coordinate <
          snapTolSq cap resolution selId features coordinate) ∧
    (snapToBoundary cap resolution selId features coordinate = (coordinate, none) ∨
      ∃ f ∈ snapCandidates selId features,
        sqDist (cap.closestPoint f.ringCoords coordinate) coordinate <
          snapTolSq cap resolution selId features coordinate ∧
        (∀ g ∈ snapCandidates selId features,
          sqDist (cap.closestPoint f.ringCoords coordinate) coordinate ≤
            sqDist (cap.closestPoint g.ringCoords coordinate) coordinate) ∧
        snapToBoundary cap resolution selId features coordinate =
          (segRefine cap (snapTolSq cap resolution selId features coordinate)
             coordinate f.ringCoords,
           some (segRefine cap (snapTolSq cap resolution selId features coordinate)
             coordinate f.ringCoords))) := by
  refine ⟨?_, ?_, ?_⟩
  · intro pre post f hf
    have hc : snapCandidates selId (pre ++ f :: post) =
        snapCandidates selId (pre ++ post) := by
      simp only [snapCandidates, List.filter_append]
      rw [List.filter_cons_of_neg (by rw [hf]; exact Bool.false_ne_true)]
    simp only [snapToBoundary, snapTolSq, hc]
  · by_cases hemp : (snapCandidates selId features).isEmpty
    · have hnil : snapCandidates selId features = [] := List.isEmpty_iff.mp hemp
      have hres : snapToBoundary cap resolution selId features coordinate =
          (coordinate, none) := by
        simp only [snapToBoundary]
        rw [if_pos hemp]
      rw [hres, hnil]
      simp
    · rcases hscan : scanBoundaries cap coordinate
          (snapTolSq cap resolution selId features coordinate) none
          (snapCandidates selId features) with _ | ⟨cp, cd, cr⟩
      · have hres : snapToBoundary cap resolution selId features coordinate =
            (coordinate, none) := by
          simp only [snapToBoundary]
          rw [if_neg hemp, hscan]
        rw [hres]
        have hall := (scanBoundaries_eq_none cap coordinate _ _ _ hscan).2
        constructor
        · intro habs
          exact absurd habs (by simp)
        · rintro ⟨f, hf, hlt⟩
          exact absurd hlt (hall f hf)
      · have horigin := scanBoundaries_origin cap coordinate _ _ _ _ _ _ hscan
        rcases horigin with h2 | ⟨f, hf, hcp, hcd, hcr, hlt⟩
        · exact absurd h2 (by simp)
        · have hres : (snapToBoundary cap resolution selId features coordinate).2.isSome
              = true := by
            simp only [snapToBoundary]
            rw [if_neg hemp, hscan]
            rcases hbs : bestSegment cap coordinate none (segmentsOf cr) with _ | ⟨bp, bd⟩
            · simp [hbs]
            · by_cases hbd : bd < snapTolSq cap resolution selId features coordinate
              · simp [hbs, hbd]
              · simp [hbs, hbd]
          rw [hres]
          simp only [true_iff]
          exact ⟨f, hf, hcd ▸ hlt⟩
  · by_cases hemp : (snapCandidates selId features).isEmpty
    · left
      simp only [snapToBoundary]
      rw [if_pos hemp]
    · rcases hscan : scanBoundaries cap coordinate
          (snapTolSq cap resolution selId features coordinate) none
          (snapCandidates selId features) with _ | ⟨cp, cd, cr⟩
      · left
        simp only [snapToBoundary]
        rw [if_neg hemp, hscan]
      · have horigin := scanBoundaries_origin cap coordinate _ _ _ _ _ _ hscan
        rcases horigin with h2 | ⟨f, hf, hcp, hcd, hcr, hlt⟩
        · exact absurd h2 (by simp)
        · subst hcd
          subst hcp
          subst hcr
          right
          refine ⟨f, hf, hlt, fun g hg => ?_, ?_⟩
          · have hmin := (scanBoundaries_min cap coordinate _ _ _ _ _ _ hscan).1 g hg
            rcases hmin with h1 | h1
            · exact h1
            · exact le_of_lt (lt_of_lt_of_le hlt (not_lt.mp h1))
          · simp only [snapToBoundary]
            rw [if_neg hemp, hscan, segRefine]
            rcases hbs : bestSegment cap coordinate none (segmentsOf f.ringCoords)
              with _ | ⟨bp, bd⟩
            · simp [hbs]
            · by_cases hbd : bd < snapTolSq cap resolution selId features coordinate
              · simp [hbs, hbd]
              · simp [hbs, hbd]

/-- The concrete snapping capability used by the witness. -/
def demoSnapCap : SnapCap where
  closestPoint := fun ring _ => ring.headD (0, 0)
  intersectsCoordinate := fun _ _ => false

/-- A polygon feature of the selected class (not a snap candidate). -/
def sameClassSnapFeat : SnapFeature :=
  { classId := some 1, ring := some [(0, 0), (1, 0)] }

/-- C7, witness: the invariance part of the snapping theorem applied to a
same-class polygon feature, which the candidate filter rejects. -/
theorem c7_boundary_snapping_witness :
    snapToBoundary demoSnapCap 1 1 ([] ++ sameClassSnapFeat :: []) (0, 0) =
      snapToBoundary demoSnapCap 1 1 ([] ++ []) (0, 0) :=
  (c7_boundary_snapping demoSnapCap 1 1 [] (0, 0)).1 [] [] sameClassSnapFeat
    (by decide)

end Paintbrush
